import Mathlib

/-!
Verification of the Octopus API gateway repository.

The repository ships the documentation frontend (TypeScript, under
`frontend/docs`) together with the gateway's design documents; the Rust
routing/proxy crates themselves are stubs whose behaviour is fixed by the
design spec.  Pure TypeScript helpers are embedded directly; the gateway
core (router, load balancer, circuit breaker, proxy retry loop, route
synchronizer) is modelled from the spec, as indicated on each definition.
-/

namespace Octopus

/-! ## Documentation frontend: `getLLMText` (src/unnamed/part_003) -/

/-- A documentation page as consumed by `getLLMText`: the fields of
`page.data` and `page` that the function reads.  `getText` stands for the
async `page.data.getText` accessor; invoking it is observable, so the
embedding returns a flag recording whether it was called. -/
structure Page where
  dataType : String
  slugs : List String
  title : String
  url : String
  path : String
  description : String
  getText : String → String

/-- The object literal `{go: ..., rust: ..., ui: ..., cli: ...}` indexed by
`page.slugs[0]`. -/
def categoryMap (s : String) : Option String :=
  if s = "go" then some "Authsome Golang (the Go library for Authsome)"
  else if s = "rust" then some "Authsome Rust (the Rust library for Authsome)"
  else if s = "ui" then some "Authsome UI (the one stop Auth UI Kit)"
  else if s = "cli" then some "Authsome CLI (the CLI tool for automating Authsome apps)"
  else none

/-- `{...}[page.slugs[0]] ?? page.slugs[0]`; an empty `slugs` renders the
JavaScript `undefined` into the template literal. -/
def resolvedCategory (page : Page) : String :=
  match page.slugs.head? with
  | some s => (categoryMap s).getD s
  | none => "undefined"

/-- `getLLMText` from src/unnamed/part_003.  The second component records
whether `page.data.getText` was invoked. -/
def getLLMText (page : Page) : String × Bool :=
  if page.dataType = "openapi" then ("", false)
  else
    let category := resolvedCategory page
    let processed := page.getText "processed"
    ("# " ++ category ++ ": " ++ page.title
      ++ "\nURL: " ++ page.url
      ++ "\nSource: https://raw.githubusercontent.com/xraph/authsome/refs/heads/main/apps/docs/content/docs/"
      ++ page.path
      ++ "\n\n" ++ page.description
      ++ "\n        \n" ++ processed, true)

/-! ## Documentation frontend: `baseUrl` (frontend/docs/src/lib/metadata.ts) -/

/-- JavaScript truthiness test used by `!process.env.VERCEL_PROJECT_PRODUCTION_URL`:
an absent or empty environment variable is falsy. -/
def envFalsy : Option String → Bool
  | none => true
  | some s => s = ""

/-- `baseUrl` from metadata.ts, as a function of `process.env.NODE_ENV` and
`process.env.VERCEL_PROJECT_PRODUCTION_URL` (the `new URL(...)` value is
represented by its href string). -/
def baseUrl (nodeEnv : String) (vercelUrl : Option String) : String :=
  if nodeEnv = "development" || envFalsy vercelUrl then "http://localhost:3000"
  else "https://" ++ vercelUrl.getD ""

/-! ## Documentation frontend: `createMetadata` (frontend/docs/src/lib/metadata.ts)

Each overridable sub-object is a record of optional fields where `none`
means the key is absent from the override object, so an object spread
(`...override.openGraph`) keeps the default for absent keys and replaces it
for present ones.  In the merged output every key written by the object
literal is present, so its fields are plain values (`Option String` at the
value level, `none` standing for `undefined`). -/

/-- Fields of `override.openGraph` relevant to the literal in `createMetadata`;
`none` means the key is absent from the override object. -/
structure OGOverride where
  title : Option (Option String) := none
  description : Option (Option String) := none
  url : Option (Option String) := none
  images : Option (Option String) := none
  siteName : Option (Option String) := none
deriving Repr, DecidableEq

/-- The merged `openGraph` object produced by `createMetadata`. -/
structure OGResult where
  title : Option String
  description : Option String
  url : Option String
  images : Option String
  siteName : Option String
deriving Repr, DecidableEq

/-- Fields of `override.twitter`; `none` means the key is absent. -/
structure TwitterOverride where
  card : Option (Option String) := none
  creator : Option (Option String) := none
  title : Option (Option String) := none
  description : Option (Option String) := none
  images : Option (Option String) := none
deriving Repr, DecidableEq

/-- The merged `twitter` object produced by `createMetadata`. -/
structure TwitterResult where
  card : Option String
  creator : Option String
  title : Option String
  description : Option String
  images : Option String
deriving Repr, DecidableEq

/-- One RSS alternate reference, as in the `'application/rss+xml'` entry. -/
structure RssRef where
  title : String
  url : String
deriving Repr, DecidableEq

/-- Fields of `override.alternates`; `none` means the key is absent. -/
structure AlternatesOverride where
  types : Option (Option (List RssRef)) := none
  canonical : Option (Option String) := none
deriving Repr, DecidableEq

/-- The merged `alternates` object: `types` is always written by the literal;
`canonical` is present only when the override supplies it. -/
structure AlternatesResult where
  types : Option (List RssRef)
  canonical : Option (Option String)
deriving Repr, DecidableEq

/-- The `Metadata` values flowing into `createMetadata`: the top-level fields
the function reads (`title`, `description`) plus the three decorated
sub-objects and representative untouched top-level fields. -/
structure Metadata where
  title : Option String := none
  description : Option String := none
  keywords : Option (List String) := none
  authors : Option (List String) := none
  openGraph : Option OGOverride := none
  twitter : Option TwitterOverride := none
  alternates : Option AlternatesOverride := none
deriving Repr, DecidableEq

/-- The result shape of `createMetadata`: top-level fields spread from the
override, with the three decorated sub-objects always present. -/
structure MetadataOut where
  title : Option String
  description : Option String
  keywords : Option (List String)
  authors : Option (List String)
  openGraph : OGResult
  twitter : TwitterResult
  alternates : AlternatesResult
deriving Repr, DecidableEq

/-- The `openGraph` literal: defaults first, then `...override.openGraph`. -/
def mergeOpenGraph (override : Metadata) : OGResult :=
  let og := override.openGraph.getD {}
  { title := og.title.getD override.title
    description := og.description.getD override.description
    url := og.url.getD (some "https://fumadocs.dev")
    images := og.images.getD (some "/banner.png")
    siteName := og.siteName.getD (some "Authsome") }

/-- The `twitter` literal: defaults first, then `...override.twitter`. -/
def mergeTwitter (override : Metadata) : TwitterResult :=
  let tw := override.twitter.getD {}
  { card := tw.card.getD (some "summary_large_image")
    creator := tw.creator.getD (some "@xraph")
    title := tw.title.getD override.title
    description := tw.description.getD override.description
    images := tw.images.getD (some "/banner.png") }

/-- The `alternates` literal: the RSS `types` default, then `...override.alternates`. -/
def mergeAlternates (override : Metadata) : AlternatesResult :=
  let al := override.alternates.getD {}
  { types := al.types.getD (some [⟨"Authsome Blog", "https://authsome.dev/blog/rss.xml"⟩])
    canonical := al.canonical }

/-- `createMetadata` from metadata.ts: `{...override, openGraph: {...},
twitter: {...}, alternates: {...}}`. -/
def createMetadata (override : Metadata) : MetadataOut :=
  { title := override.title
    description := override.description
    keywords := override.keywords
    authors := override.authors
    openGraph := mergeOpenGraph override
    twitter := mergeTwitter override
    alternates := mergeAlternates override }

/-! ## Circuit Breaker (spec §3 "Circuit Breaker State", §4.3) -/

/-- Modelled from the spec: the per-instance circuit breaker states of the
`octopus-core`/`octopus-proxy` crates (stubs in the workspace): Closed,
Open, HalfOpen. -/
inductive CBState where
  | Closed
  | Open
  | HalfOpen
deriving Repr, DecidableEq

/-- Modelled from the spec: the per-instance Circuit Breaker State record
{state, consecutive_failures, opened_at, half_open_probe_in_flight}. -/
structure CB where
  state : CBState
  consecutive_failures : Nat
  opened_at : Nat
  half_open_probe_in_flight : Bool
deriving Repr, DecidableEq

/-- Modelled from the spec: circuit-breaker configuration
{failure_threshold, timeout_ms}. -/
structure CBConfig where
  failure_threshold : Nat
  timeout_ms : Nat
deriving Repr, DecidableEq

/-- The initial (Closed, zeroed) breaker. -/
def CB.init : CB :=
  { state := .Closed
    consecutive_failures := 0
    opened_at := 0
    half_open_probe_in_flight := false }

/-- Modelled from the spec: a failed upstream call reported to the breaker at
time `now`.  In Closed it increments `consecutive_failures` and opens once
the threshold is reached; a HalfOpen probe failure reopens the breaker and
resets `opened_at`; failures in Open cannot occur (Open instances are not
selected) and leave the state unchanged. -/
def CB.onFailure (cfg : CBConfig) (cb : CB) (now : Nat) : CB :=
  match cb.state with
  | .Closed =>
      let f := cb.consecutive_failures + 1
      if cfg.failure_threshold ≤ f then
        { state := .Open
          consecutive_failures := f
          opened_at := now
          half_open_probe_in_flight := false }
      else { cb with consecutive_failures := f }
  | .HalfOpen =>
      { state := .Open
        consecutive_failures := cb.consecutive_failures + 1
        opened_at := now
        half_open_probe_in_flight := false }
  | .Open => cb

/-- Modelled from the spec: a successful upstream call.  In Closed it resets
`consecutive_failures` to zero; a HalfOpen probe success closes the breaker;
successes in Open are impossible and leave the state unchanged. -/
def CB.onSuccess (cb : CB) : CB :=
  match cb.state with
  | .Closed => { cb with consecutive_failures := 0 }
  | .HalfOpen =>
      { cb with
        state := .Closed
        consecutive_failures := 0
        half_open_probe_in_flight := false }
  | .Open => cb

/-- Modelled from the spec: selection-time gating at time `now`.  Closed
instances are usable; an Open instance becomes a single HalfOpen probe once
`timeout_ms` has elapsed since `opened_at`; while a HalfOpen probe is in
flight further requests are treated as if the instance were Open.  Returns
whether the instance may be used together with the updated breaker. -/
def CB.acquire (cfg : CBConfig) (cb : CB) (now : Nat) : Bool × CB :=
  match cb.state with
  | .Closed => (true, cb)
  | .Open =>
      if cfg.timeout_ms ≤ now - cb.opened_at then
        (true, { cb with state := .HalfOpen, half_open_probe_in_flight := true })
      else (false, cb)
  | .HalfOpen =>
      if cb.half_open_probe_in_flight then (false, cb)
      else (true, { cb with half_open_probe_in_flight := true })

/-- `n` consecutive failures reported at time `now`. -/
def CB.failN (cfg : CBConfig) (cb : CB) (now : Nat) : Nat → CB
  | 0 => cb
  | n + 1 => CB.onFailure cfg (CB.failN cfg cb now n) now

/-! ## Route Table and Router (spec §3 "Route", §4.1)

The spec fixes the observable matching semantics: a path template is a
sequence of literal segments, named parameters and at most one wildcard
tail; overlapping candidates are resolved by specificity (literal >
named-parameter > wildcard, decided at the first differing segment) and
then by registration order.  The list-of-routes embedding below selects the
lexicographically most specific matching route, which is exactly that
tie-breaking rule. -/

/-- Modelled from the spec: one segment of a path template
(`octopus-router` is a stub in the workspace). -/
inductive Seg where
  | lit (s : String)
  | param (name : String)
  | wildcard
deriving Repr, DecidableEq

/-- Modelled from the spec: a Route {pattern, method, cluster_ref}. -/
structure Route where
  pattern : List Seg
  method : String
  cluster_ref : String
deriving Repr, DecidableEq

/-- Modelled from the spec: segment-by-segment matching of a template against
the path's segments, accumulating named-parameter bindings; a wildcard tail
consumes the whole remaining path. -/
def matchPattern : List Seg → List String → Option (List (String × String))
  | [], [] => some []
  | Seg.lit s :: ps, x :: xs =>
      if s = x then matchPattern ps xs else none
  | Seg.param n :: ps, x :: xs =>
      (matchPattern ps xs).map (fun ks => (n, x) :: ks)
  | Seg.wildcard :: _, xs =>
      some [("*", String.intercalate "/" xs)]
  | _, _ => none

/-- Specificity class of a segment: literal beats named-parameter beats
wildcard. -/
def segClass : Seg → Nat
  | .lit _ => 0
  | .param _ => 1
  | .wildcard => 2

/-- Specificity key of a pattern: its list of segment classes. -/
def patKey (p : List Seg) : List Nat := p.map segClass

/-- Strict lexicographic order on specificity keys: the candidate that is
more specific at the first differing segment wins. -/
def lexLt : List Nat → List Nat → Bool
  | [], [] => false
  | [], _ :: _ => true
  | _ :: _, [] => false
  | a :: as, b :: bs =>
      if a < b then true
      else if b < a then false
      else lexLt as bs

/-- One comparison step of candidate selection: a strictly more specific
later candidate replaces the current best, so ties keep the earlier
registration. -/
def pickStep (acc : Option (Route × List (String × String)))
    (x : Route × List (String × String)) :
    Option (Route × List (String × String)) :=
  match acc with
  | none => some x
  | some b => if lexLt (patKey x.1.pattern) (patKey b.1.pattern) then some x else some b

/-- Keep the most specific candidate, earlier registration winning ties. -/
def pickBest (l : List (Route × List (String × String))) :
    Option (Route × List (String × String)) :=
  l.foldl pickStep none

/-- Modelled from the spec: the outcome of `Router.match` — a matched route
with its path parameters, MethodNotAllowed with the allowed method set, or
NotFound. -/
inductive MatchResult where
  | found (r : Route) (params : List (String × String))
  | methodNotAllowed (allowed : List String)
  | notFound
deriving Repr, DecidableEq

/-- The routes of the table whose pattern matches the path, with their
bindings, in registration order. -/
def pathCandidates (routes : List Route) (path : List String) :
    List (Route × List (String × String)) :=
  routes.filterMap (fun r => (matchPattern r.pattern path).map (fun ps => (r, ps)))

/-- Modelled from the spec: `Router.match(path, method)` over a Route Table
snapshot.  NotFound when no pattern matches the path; when patterns match
only for other methods, MethodNotAllowed carrying the allowed methods;
otherwise the most specific matching route for the method. -/
def Router.match (routes : List Route) (path : List String) (method : String) :
    MatchResult :=
  if (pathCandidates routes path).isEmpty then .notFound
  else
    match pickBest ((pathCandidates routes path).filter (fun c => c.1.method = method)) with
    | some (r, ps) => .found r ps
    | none =>
      .methodNotAllowed (((pathCandidates routes path).map (fun c => c.1.method)).dedup)

/-! ## Load Balancer (spec §4.2): round-robin strategy -/

/-- Modelled from the spec: round-robin selection over the current
healthy-instance list with a per-cluster monotonically advancing cursor that
wraps.  Returns the selected instance (none when the list is empty) and the
advanced cursor. -/
def rrSelect (healthy : List String) (c : Nat) : Option String × Nat :=
  if h : 0 < healthy.length then
    (some (healthy.get ⟨c % healthy.length, Nat.mod_lt _ h⟩), c + 1)
  else (none, c)

/-- The instances produced by `n` consecutive round-robin selections. -/
def rrRun (healthy : List String) (c : Nat) : Nat → List String
  | 0 => []
  | n + 1 =>
    match rrSelect healthy c with
    | (some i, c2) => i :: rrRun healthy c2 n
    | (none, _) => []

/-! ## Proxy Executor retry loop (spec §4.6, §7, design note on retry loops) -/

/-- Modelled from the spec: retry policy {max_attempts}. -/
structure RetryPolicy where
  max_attempts : Nat
deriving Repr, DecidableEq

/-- Modelled from the spec: outcome surfaced by the Proxy Executor. -/
inductive ProxyResult where
  | success (instance_ : String)
  | retryExhausted
  | serviceUnavailable
deriving Repr, DecidableEq

/-- Modelled from the spec: `Load Balancer.select(cluster, exclude)` as seen
by the retry loop — the first eligible instance not previously tried. -/
def selectExcluding (avail excluded : List String) : Option String :=
  avail.find? (fun i => !(excluded.contains i))

/-- Modelled from the spec: the Proxy Executor retry loop as an explicit
state machine (remaining budget, exclusion set, attempts made).  Each
attempt selects an instance excluding the ones already tried; a success
returns it, a retriable failure consumes budget and retries; an exhausted
budget yields RetryExhausted and an empty candidate set ServiceUnavailable.
Returns the number of attempts made and the outcome. -/
def executeLoop (outcome : String → Bool) :
    Nat → List String → List String → Nat → Nat × ProxyResult
  | 0, _, _, made => (made, .retryExhausted)
  | budget + 1, excluded, avail, made =>
    match selectExcluding avail excluded with
    | none => (made, .serviceUnavailable)
    | some i =>
      if outcome i then (made + 1, .success i)
      else executeLoop outcome budget (i :: excluded) avail (made + 1)

/-- Modelled from the spec: `execute` for one request against a cluster whose
per-attempt outcomes are given by `outcome` (true = success). -/
def proxyExecute (policy : RetryPolicy) (outcome : String → Bool)
    (avail : List String) : Nat × ProxyResult :=
  executeLoop outcome policy.max_attempts [] avail 0

/-! ## Route Synchronizer (spec §4.7) -/

/-- Modelled from the spec: the versioned, immutable Route Table snapshot. -/
structure Snapshot where
  routes : List Route
  version : Nat
deriving Repr, DecidableEq

/-- Modelled from the spec: configuration-time errors of `apply_update`. -/
inductive SyncError where
  | invalidRouteSet
deriving Repr, DecidableEq

/-- Modelled from the spec: validation rejects duplicate routes — two routes
with the same pattern and method in one update. -/
def validRouteSet (rs : List Route) : Bool :=
  decide ((rs.map (fun r => (r.pattern, r.method))).Nodup)

/-- Modelled from the spec: `apply_update(new_routes)` — validates the update
(rejecting an invalid set and keeping the prior snapshot active), then
publishes a freshly built snapshot; an update identical to the published
route set is a no-op that still succeeds, leaving the snapshot and its
version unchanged. -/
def apply_update (table : Snapshot) (newRoutes : List Route) :
    Except SyncError Snapshot :=
  if validRouteSet newRoutes then
    if newRoutes = table.routes then .ok table
    else .ok { routes := newRoutes, version := table.version + 1 }
  else .error .invalidRouteSet

/-! # Theorems -/

/-- A string extending "https://" is never the localhost URL. -/
theorem https_ne (s : String) : ("https://" ++ s) ≠ "http://localhost:3000" := by
  intro h
  have h2 : ("https://" ++ s).data = ("http://localhost:3000" : String).data := by rw [h]
  rw [String.data_append] at h2
  have h3 : (("https://" : String).data ++ s.data).take 8
      = (("http://localhost:3000" : String).data).take 8 := by rw [h2]
  rw [List.take_left' (by rfl)] at h3
  exact absurd h3 (by decide)

/-- C10: baseUrl equals http://localhost:3000 exactly when NODE_ENV is
"development" or VERCEL_PROJECT_PRODUCTION_URL is absent or empty;
otherwise it equals https:// followed by that variable's value. -/
theorem baseUrl_localhost_iff (e : String) (v : Option String) :
    (baseUrl e v = "http://localhost:3000" ↔
      e = "development" ∨ v = none ∨ v = some "") ∧
    (∀ s, v = some s → s ≠ "" → e ≠ "development" →
      baseUrl e v = "https://" ++ s) := by
  refine ⟨⟨fun h => ?_, fun h => ?_⟩, fun s hv hs he => ?_⟩
  · by_contra hc
    push_neg at hc
    obtain ⟨he, hn, hs⟩ := hc
    match v, hn with
    | some s, _ =>
      have hse : s ≠ "" := fun h0 => hs (by rw [h0])
      rw [baseUrl, if_neg] at h
      · exact https_ne s h
      · simp [envFalsy, he, hse]
  · rcases h with h | h | h
    · simp [baseUrl, h]
    · subst h; simp [baseUrl, envFalsy]
    · subst h; simp [baseUrl, envFalsy]
  · subst hv
    rw [baseUrl, if_neg]
    · rfl
    · simp [envFalsy, he, hs]

/-- C10 witness: with NODE_ENV = "production" and the variable set to
"octopus.dev", baseUrl is https://octopus.dev, and with it absent baseUrl
is localhost. -/
theorem baseUrl_localhost_iff_witness :
    baseUrl "production" (some "octopus.dev") = "https://" ++ "octopus.dev" ∧
    baseUrl "production" none = "http://localhost:3000" :=
  ⟨(baseUrl_localhost_iff "production" (some "octopus.dev")).2 "octopus.dev" rfl
      (by decide) (by decide),
    (baseUrl_localhost_iff "production" none).1.2 (Or.inr (Or.inl rfl))⟩

/-- C8: getLLMText returns the empty string for openapi pages without
invoking getText; for any other page it invokes getText and the result
starts with "# ", the resolved category, ": " and the page title. -/
theorem getLLMText_spec (page : Page) :
    (page.dataType = "openapi" → getLLMText page = ("", false)) ∧
    (page.dataType ≠ "openapi" →
      (getLLMText page).2 = true ∧
      ∃ rest, (getLLMText page).1
        = ("# " ++ resolvedCategory page ++ ": " ++ page.title) ++ rest) := by
  constructor
  · intro h
    simp [getLLMText, h]
  · intro h
    rw [getLLMText, if_neg h]
    refine ⟨rfl, "\nURL: " ++ page.url
      ++ "\nSource: https://raw.githubusercontent.com/xraph/authsome/refs/heads/main/apps/docs/content/docs/"
      ++ page.path ++ "\n\n" ++ page.description
      ++ "\n        \n" ++ page.getText "processed", ?_⟩
    simp only [String.append_assoc]

/-- C8 witness: a concrete openapi page yields ("", false); a concrete go
page yields a string headed by the resolved category and title, with
getText invoked. -/
theorem getLLMText_spec_witness :
    getLLMText ⟨"openapi", ["go"], "T", "u", "p", "d", fun _ => "X"⟩ = ("", false) ∧
    (getLLMText ⟨"doc", ["go"], "T", "u", "p", "d", fun _ => "X"⟩).2 = true := by
  refine ⟨(getLLMText_spec _).1 rfl, ?_⟩
  have h := (getLLMText_spec ⟨"doc", ["go"], "T", "u", "p", "d", fun _ => "X"⟩).2
    (by decide)
  exact h.1

/-- C2: Router.match is deterministic — two lookups against the same route
table snapshot with the same path and method yield the same result. -/
theorem router_match_deterministic (routes : List Route) (path : List String)
    (method : String) (r1 r2 : MatchResult)
    (h1 : r1 = Router.match routes path method)
    (h2 : r2 = Router.match routes path method) : r1 = r2 :=
  h1.trans h2.symm

/-- C2 witness: two lookups of /users/1 with GET against a one-route table
agree. -/
theorem router_match_deterministic_witness :
    Router.match [⟨[.lit "users", .param "id"], "GET", "users"⟩] ["users", "1"] "GET"
      = Router.match [⟨[.lit "users", .param "id"], "GET", "users"⟩] ["users", "1"] "GET" :=
  router_match_deterministic _ _ _ _ _ rfl rfl

/-- C7: apply_update is idempotent — if applying a route set succeeds and
publishes snapshot t, immediately re-applying the same route set succeeds
and returns the very same snapshot, version included. -/
theorem apply_update_idempotent (table t : Snapshot) (R : List Route)
    (h : apply_update table R = .ok t) : apply_update t R = .ok t := by
  rw [apply_update] at h
  by_cases hv : validRouteSet R = true
  · rw [if_pos hv] at h
    by_cases he : R = table.routes
    · rw [if_pos he] at h
      injection h with h
      subst h
      rw [apply_update, if_pos hv, if_pos he]
    · rw [if_neg he] at h
      injection h with h
      subst h
      rw [apply_update, if_pos hv, if_pos rfl]
  · rw [if_neg hv] at h
    cases h

/-- C7 witness: applying a concrete one-route set to the empty snapshot and
then re-applying it returns the identical snapshot. -/
theorem apply_update_idempotent_witness :
    apply_update { routes := [⟨[Seg.lit "users"], "GET", "users"⟩], version := 1 }
        [⟨[Seg.lit "users"], "GET", "users"⟩]
      = .ok { routes := [⟨[Seg.lit "users"], "GET", "users"⟩], version := 1 } :=
  apply_update_idempotent { routes := [], version := 0 } _ _ rfl

/-- Before the threshold is reached, consecutive failures keep the breaker
Closed while counting them. -/
theorem failN_closed (cfg : CBConfig) (now n : Nat) (hn : n < cfg.failure_threshold) :
    CB.failN cfg CB.init now n =
      { state := .Closed, consecutive_failures := n, opened_at := 0,
        half_open_probe_in_flight := false } := by
  induction n with
  | zero => rfl
  | succ k ih =>
    rw [CB.failN, ih (by omega)]
    rw [CB.onFailure]
    simp only []
    rw [if_neg (by omega)]

/-- C1: the circuit breaker state machine.  From Closed, failure_threshold
consecutive failures open the breaker (recording the opening time); while
timeout_ms has not elapsed the instance cannot be acquired; once it has
elapsed exactly one HalfOpen probe is permitted (a concurrent second
acquire is refused); a probe success closes the breaker and zeroes
consecutive_failures; a probe failure reopens it and resets opened_at. -/
theorem circuit_breaker_machine (cfg : CBConfig) (hft : 1 ≤ cfg.failure_threshold)
    (now : Nat) :
    (CB.failN cfg CB.init now cfg.failure_threshold).state = .Open ∧
    (CB.failN cfg CB.init now cfg.failure_threshold).consecutive_failures
      = cfg.failure_threshold ∧
    (CB.failN cfg CB.init now cfg.failure_threshold).opened_at = now ∧
    (∀ t, t - now < cfg.timeout_ms →
      (CB.acquire cfg (CB.failN cfg CB.init now cfg.failure_threshold) t).1 = false) ∧
    (∀ t, cfg.timeout_ms ≤ t - now →
      (CB.acquire cfg (CB.failN cfg CB.init now cfg.failure_threshold) t).1 = true ∧
      (CB.acquire cfg (CB.failN cfg CB.init now cfg.failure_threshold) t).2.state
        = .HalfOpen ∧
      (CB.acquire cfg
        (CB.acquire cfg (CB.failN cfg CB.init now cfg.failure_threshold) t).2 t).1
        = false ∧
      (CB.onSuccess
        (CB.acquire cfg (CB.failN cfg CB.init now cfg.failure_threshold) t).2).state
        = .Closed ∧
      (CB.onSuccess
        (CB.acquire cfg (CB.failN cfg CB.init now cfg.failure_threshold) t).2).consecutive_failures
        = 0 ∧
      (∀ t2,
        (CB.onFailure cfg
          (CB.acquire cfg (CB.failN cfg CB.init now cfg.failure_threshold) t).2 t2).state
          = .Open ∧
        (CB.onFailure cfg
          (CB.acquire cfg (CB.failN cfg CB.init now cfg.failure_threshold) t).2 t2).opened_at
          = t2)) := by
  obtain ⟨k, hk⟩ : ∃ k, cfg.failure_threshold = k + 1 :=
    ⟨cfg.failure_threshold - 1, by omega⟩
  have hopen : CB.failN cfg CB.init now cfg.failure_threshold =
      { state := .Open, consecutive_failures := cfg.failure_threshold,
        opened_at := now, half_open_probe_in_flight := false } := by
    rw [hk, CB.failN, failN_closed cfg now k (by omega), CB.onFailure]
    simp only []
    rw [if_pos (by omega)]
  rw [hopen]
  refine ⟨rfl, rfl, rfl, fun t ht => ?_, fun t ht => ?_⟩
  · rw [CB.acquire]
    simp only []
    rw [if_neg (by omega)]
  · rw [CB.acquire]
    simp only []
    rw [if_pos (by omega)]
    exact ⟨rfl, rfl, rfl, rfl, rfl, fun t2 => ⟨rfl, rfl⟩⟩

/-- C1 witness: with threshold 3 and timeout 100, after 3 failures at time
42 the breaker is Open with opened_at 42, acquisition at time 100 is
refused, at 142 a single probe passes with a second refused, and the probe
outcome transitions apply. -/
theorem circuit_breaker_machine_witness :
    (CB.failN ⟨3, 100⟩ CB.init 42 3).state = .Open ∧
    (CB.acquire ⟨3, 100⟩ (CB.failN ⟨3, 100⟩ CB.init 42 3) 100).1 = false ∧
    (CB.acquire ⟨3, 100⟩ (CB.failN ⟨3, 100⟩ CB.init 42 3) 142).1 = true ∧
    (CB.acquire ⟨3, 100⟩
      (CB.acquire ⟨3, 100⟩ (CB.failN ⟨3, 100⟩ CB.init 42 3) 142).2 142).1 = false := by
  have h := circuit_breaker_machine ⟨3, 100⟩ (by decide) 42
  have h100 := h.2.2.2.1 100 (by decide)
  have h142 := h.2.2.2.2 142 (by decide)
  exact ⟨h.1, h100, h142.1, h142.2.2.1⟩

/-- The specificity order is irreflexive. -/
theorem lexLt_irrefl (a : List Nat) : lexLt a a = false := by
  induction a with
  | nil => rfl
  | cons x xs ih =>
    rw [lexLt, if_neg (Nat.lt_irrefl x), if_neg (Nat.lt_irrefl x)]
    exact ih

/-- A lexicographically smaller key starts with a head that is no larger. -/
theorem lexLt_le_head {x y : Nat} {xs ys : List Nat}
    (h : lexLt (x :: xs) (y :: ys) = true) : x ≤ y := by
  rw [lexLt] at h
  by_cases hxy : x < y
  · omega
  · rw [if_neg hxy] at h
    by_cases hyx : y < x
    · rw [if_pos hyx] at h
      cases h
    · omega

/-- Stripping an equal head preserves the specificity order. -/
theorem lexLt_cons_same {x : Nat} {xs ys : List Nat}
    (h : lexLt (x :: xs) (x :: ys) = true) : lexLt xs ys = true := by
  rwa [lexLt, if_neg (Nat.lt_irrefl x), if_neg (Nat.lt_irrefl x)] at h

/-- The specificity order is transitive. -/
theorem lexLt_trans (a : List Nat) : ∀ b c : List Nat,
    lexLt a b = true → lexLt b c = true → lexLt a c = true := by
  induction a with
  | nil =>
    intro b c h1 h2
    match b, c, h1, h2 with
    | [], _, h1, _ => exact Bool.noConfusion h1
    | _ :: _, [], _, h2 => exact Bool.noConfusion h2
    | _ :: _, _ :: _, _, _ => rfl
  | cons x xs ih =>
    intro b c h1 h2
    match b, c with
    | [], _ => exact Bool.noConfusion h1
    | _ :: _, [] => exact Bool.noConfusion h2
    | y :: ys, z :: zs =>
      have hxy := lexLt_le_head h1
      have hyz := lexLt_le_head h2
      rw [lexLt]
      by_cases hxz : x < z
      · rw [if_pos hxz]
      · rw [if_neg hxz, if_neg (by omega : ¬ z < x)]
        have hzx : z = x := by omega
        have hyx : y = x := by omega
        subst hzx
        subst hyx
        exact ih ys zs (lexLt_cons_same h1) (lexLt_cons_same h2)

/-- Folding the selection step from a seed returns a candidate at least as
specific as the seed and minimal among the folded candidates. -/
theorem pick_go (l : List (Route × List (String × String))) :
    ∀ b, ∃ r, l.foldl pickStep (some b) = some r ∧
      (r = b ∨ lexLt (patKey r.1.pattern) (patKey b.1.pattern) = true) ∧
      (∀ y ∈ l, lexLt (patKey y.1.pattern) (patKey r.1.pattern) = false) := by
  induction l with
  | nil =>
    intro b
    exact ⟨b, rfl, Or.inl rfl, by simp⟩
  | cons x l ih =>
    intro b
    by_cases h : lexLt (patKey x.1.pattern) (patKey b.1.pattern) = true
    · obtain ⟨r, hr, hrx, hall⟩ := ih x
      refine ⟨r, ?_, ?_, ?_⟩
      · rw [List.foldl_cons]
        show List.foldl pickStep (if lexLt (patKey x.1.pattern) (patKey b.1.pattern)
          then some x else some b) l = some r
        rw [if_pos h]
        exact hr
      · rcases hrx with rfl | hlt
        · exact Or.inr h
        · exact Or.inr (lexLt_trans _ _ _ hlt h)
      · intro y hy
        rcases List.mem_cons.mp hy with rfl | hy2
        · rcases hrx with rfl | hlt
          · exact lexLt_irrefl _
          · by_contra hxr
            rw [Bool.not_eq_false] at hxr
            have hxx := lexLt_trans _ _ _ hxr hlt
            rw [lexLt_irrefl] at hxx
            exact Bool.noConfusion hxx
        · exact hall y hy2
    · obtain ⟨r, hr, hrb, hall⟩ := ih b
      refine ⟨r, ?_, hrb, ?_⟩
      · rw [List.foldl_cons]
        show List.foldl pickStep (if lexLt (patKey x.1.pattern) (patKey b.1.pattern)
          then some x else some b) l = some r
        rw [if_neg h]
        exact hr
      · intro y hy
        rcases List.mem_cons.mp hy with rfl | hy2
        · by_contra hxr
          rw [Bool.not_eq_false] at hxr
          refine h ?_
          rcases hrb with rfl | hlt
          · exact hxr
          · exact lexLt_trans _ _ _ hxr hlt
        · exact hall y hy2

/-- The selected candidate is minimal in the specificity order: no candidate
in the list is strictly more specific. -/
theorem pickBest_min (l : List (Route × List (String × String)))
    (r : Route × List (String × String)) (h : pickBest l = some r) :
    ∀ y ∈ l, lexLt (patKey y.1.pattern) (patKey r.1.pattern) = false := by
  cases l with
  | nil => exact Option.noConfusion h
  | cons x l =>
    rw [pickBest, List.foldl_cons] at h
    have hx : pickStep none x = some x := rfl
    rw [hx] at h
    obtain ⟨r2, hr2, hrx, hall⟩ := pick_go l x
    rw [hr2] at h
    injection h with h
    subst h
    intro y hy
    rcases List.mem_cons.mp hy with rfl | hy2
    · rcases hrx with rfl | hlt
      · exact lexLt_irrefl _
      · by_contra hxr
        rw [Bool.not_eq_false] at hxr
        have hxx := lexLt_trans _ _ _ hxr hlt
        rw [lexLt_irrefl] at hxx
        exact Bool.noConfusion hxx
    · exact hall y hy2

/-- Membership in the path-candidate list. -/
theorem mem_pathCandidates {routes : List Route} {path : List String}
    {r : Route} {ps : List (String × String)} :
    (r, ps) ∈ pathCandidates routes path ↔
      r ∈ routes ∧ matchPattern r.pattern path = some ps := by
  simp only [pathCandidates, List.mem_filterMap, Option.map_eq_some']
  constructor
  · rintro ⟨a, ha, psa, hpsa, heq⟩
    cases heq
    exact ⟨ha, hpsa⟩
  · rintro ⟨hr, hps⟩
    exact ⟨r, hr, ps, hps, rfl⟩

/-- No pattern of the table matches the path iff the candidate list is empty. -/
theorem pathCandidates_eq_nil {routes : List Route} {path : List String} :
    pathCandidates routes path = [] ↔
      ∀ r ∈ routes, matchPattern r.pattern path = none := by
  simp [pathCandidates, List.filterMap_eq_nil_iff]

/-- C3: route matching resolves overlap by specificity — the returned route
is minimal in the literal > named-parameter > wildcard lexicographic order
among all candidates for the method; concretely, with /users/:id and
/users/active both registered, /users/active matches the literal route with
no bound parameters. -/
theorem route_specificity :
    (∀ (routes : List Route) (path : List String) (method : String)
        (r : Route) (ps : List (String × String)),
      Router.match routes path method = .found r ps →
      ∀ (r2 : Route) (ps2 : List (String × String)),
        (r2, ps2) ∈ pathCandidates routes path → r2.method = method →
        lexLt (patKey r2.pattern) (patKey r.pattern) = false) ∧
    Router.match
      [⟨[.lit "users", .param "id"], "GET", "users"⟩,
        ⟨[.lit "users", .lit "active"], "GET", "users"⟩]
      ["users", "active"] "GET"
      = .found ⟨[.lit "users", .lit "active"], "GET", "users"⟩ [] := by
  constructor
  · intro routes path method r ps h r2 ps2 hmem hm
    rw [Router.match] at h
    split at h
    · exact absurd h (by simp)
    · split at h
      · rename_i br bps hp
        injection h with h1 h2
        subst h1
        subst h2
        exact pickBest_min _ _ hp (r2, ps2)
          (by rw [List.mem_filter]; exact ⟨hmem, by simp [hm]⟩)
      · exact absurd h (by simp)
  · rfl

/-- C3 witness: the concrete overlap scenario, by direct application of the
theorem and evaluation — /users/active resolves to the literal route, and
the parameterized candidate is not more specific than it. -/
theorem route_specificity_witness :
    lexLt (patKey [Seg.lit "users", Seg.param "id"])
      (patKey [Seg.lit "users", Seg.lit "active"]) = false :=
  route_specificity.1
    [⟨[.lit "users", .param "id"], "GET", "users"⟩,
      ⟨[.lit "users", .lit "active"], "GET", "users"⟩]
    ["users", "active"] "GET" _ _ route_specificity.2
    ⟨[.lit "users", .param "id"], "GET", "users"⟩ [("id", "active")]
    (mem_pathCandidates.mpr ⟨by simp, rfl⟩) rfl

/-- C4: Router.match signals NotFound exactly when no pattern matches the
path; when the path matches only routes registered for other methods, it
signals MethodNotAllowed carrying every allowed method; concretely,
DELETE /users/1 with only GET and POST registered yields
MethodNotAllowed [GET, POST]. -/
theorem router_error_signalling :
    (∀ (routes : List Route) (path : List String) (method : String),
      Router.match routes path method = .notFound ↔
        ∀ r ∈ routes, matchPattern r.pattern path = none) ∧
    (∀ (routes : List Route) (path : List String) (method : String),
      (∃ r ∈ routes, (matchPattern r.pattern path).isSome) →
      (∀ r ∈ routes, (matchPattern r.pattern path).isSome → r.method ≠ method) →
      ∃ allowed, Router.match routes path method = .methodNotAllowed allowed ∧
        ∀ r ∈ routes, (matchPattern r.pattern path).isSome → r.method ∈ allowed) ∧
    Router.match
      [⟨[.lit "users", .param "id"], "GET", "users"⟩,
        ⟨[.lit "users", .param "id"], "POST", "users"⟩]
      ["users", "1"] "DELETE"
      = .methodNotAllowed ["GET", "POST"] := by
  refine ⟨fun routes path method => ?_, fun routes path method hex hdiff => ?_, rfl⟩
  · rw [Router.match]
    by_cases hc : (pathCandidates routes path).isEmpty = true
    · rw [if_pos hc]
      rw [List.isEmpty_iff] at hc
      exact iff_of_true rfl (pathCandidates_eq_nil.mp hc)
    · rw [if_neg hc]
      refine iff_of_false ?_ ?_
      · intro h
        split at h
        · exact MatchResult.noConfusion h
        · exact MatchResult.noConfusion h
      · intro hall
        exact hc (by rw [List.isEmpty_iff]; exact pathCandidates_eq_nil.mpr hall)
  · have hfilter :
        (pathCandidates routes path).filter (fun c => c.1.method = method) = [] := by
      rw [List.filter_eq_nil_iff]
      rintro ⟨cr, cps⟩ hc
      have hmem := mem_pathCandidates.mp hc
      have := hdiff cr hmem.1 (by rw [hmem.2]; rfl)
      simp [this]
    obtain ⟨r0, hr0, hs0⟩ := hex
    obtain ⟨ps0, hps0⟩ := Option.isSome_iff_exists.mp hs0
    have hne : ¬ (pathCandidates routes path).isEmpty = true := by
      intro hemp
      rw [List.isEmpty_iff] at hemp
      have hmem0 : (r0, ps0) ∈ pathCandidates routes path :=
        mem_pathCandidates.mpr ⟨hr0, hps0⟩
      rw [hemp] at hmem0
      exact List.not_mem_nil _ hmem0
    refine ⟨((pathCandidates routes path).map (fun c => c.1.method)).dedup, ?_, ?_⟩
    · rw [Router.match, if_neg hne, hfilter]
      rfl
    · intro r hr hsr
      obtain ⟨psr, hpsr⟩ := Option.isSome_iff_exists.mp hsr
      rw [List.mem_dedup, List.mem_map]
      exact ⟨(r, psr), mem_pathCandidates.mpr ⟨hr, hpsr⟩, rfl⟩

/-- C4 witness: with only GET /users/:id registered, a DELETE to /users/1
gets MethodNotAllowed with GET allowed, and /unknown is NotFound, both
via the theorem. -/
theorem router_error_signalling_witness :
    Router.match [⟨[Seg.lit "users", Seg.param "id"], "GET", "users"⟩]
        ["unknown"] "GET" = .notFound ∧
    ∃ allowed,
      Router.match [⟨[Seg.lit "users", Seg.param "id"], "GET", "users"⟩]
          ["users", "1"] "DELETE" = .methodNotAllowed allowed ∧
      ∀ r ∈ [(⟨[Seg.lit "users", Seg.param "id"], "GET", "users"⟩ : Route)],
        (matchPattern r.pattern ["users", "1"]).isSome → r.method ∈ allowed := by
  constructor
  · exact (router_error_signalling.1 _ _ _).mpr (by decide)
  · exact router_error_signalling.2.1 _ _ _
      ⟨⟨[Seg.lit "users", Seg.param "id"], "GET", "users"⟩, by simp, by decide⟩
      (by decide)

/-- A round-robin selection step on a nonempty healthy list picks the cursor
position modulo the list length and advances the cursor. -/
theorem rrRun_succ (healthy : List String) (h : 0 < healthy.length) (c n : Nat) :
    rrRun healthy c (n + 1) =
      healthy.get ⟨c % healthy.length, Nat.mod_lt _ h⟩ :: rrRun healthy (c + 1) n := by
  rw [rrRun, rrSelect, dif_pos h]

/-- Three consecutive round-robin selections over three instances visit each
instance exactly once, whatever the cursor. -/
theorem rrRun_three (a b d : String) (c : Nat) :
    (rrRun [a, b, d] c 3).Perm [a, b, d] := by
  have h3 : 0 < ([a, b, d] : List String).length := by simp
  rw [rrRun_succ _ h3, rrRun_succ _ h3, rrRun_succ _ h3, rrRun]
  have hc : c % 3 = 0 ∨ c % 3 = 1 ∨ c % 3 = 2 := by omega
  rcases hc with hc | hc | hc
  · have h1 : (c + 1) % 3 = 1 := by omega
    have h2 : (c + 2) % 3 = 2 := by omega
    simp only [List.length_cons, List.length_nil, hc, h1, h2]
    exact List.Perm.refl _
  · have h1 : (c + 1) % 3 = 2 := by omega
    have h2 : (c + 2) % 3 = 0 := by omega
    simp only [List.length_cons, List.length_nil, hc, h1, h2]
    show ([b, d] ++ [a]).Perm ([a] ++ [b, d])
    exact List.perm_append_comm
  · have h1 : (c + 1) % 3 = 0 := by omega
    have h2 : (c + 2) % 3 = 1 := by omega
    simp only [List.length_cons, List.length_nil, hc, h1, h2]
    show ([d] ++ [a, b]).Perm ([a, b] ++ [d])
    exact List.perm_append_comm

/-- Over two distinct instances, 2k consecutive round-robin selections pick
each instance exactly k times, whatever the cursor. -/
theorem rrRun_pair_count (a b : String) (hab : a ≠ b) :
    ∀ (k c : Nat), (rrRun [a, b] c (2 * k)).count a = k ∧
      (rrRun [a, b] c (2 * k)).count b = k := by
  intro k
  induction k with
  | zero =>
    intro c
    simp [rrRun]
  | succ m ih =>
    intro c
    have h2 : 0 < ([a, b] : List String).length := by simp
    have hsplit : 2 * (m + 1) = 2 * m + 1 + 1 := by ring
    rw [hsplit, rrRun_succ _ h2, rrRun_succ _ h2]
    have hc : c % 2 = 0 ∨ c % 2 = 1 := by omega
    obtain ⟨iha, ihb⟩ := ih (c + 1 + 1)
    rcases hc with hc | hc
    · have h1 : (c + 1) % 2 = 1 := by omega
      simp only [List.length_cons, List.length_nil, hc, h1]
      constructor
      · show List.count a (a :: b :: rrRun [a, b] (c + 1 + 1) (2 * m)) = m + 1
        rw [List.count_cons_self, List.count_cons_of_ne hab, iha]
      · show List.count b (a :: b :: rrRun [a, b] (c + 1 + 1) (2 * m)) = m + 1
        rw [List.count_cons_of_ne (Ne.symm hab), List.count_cons_self, ihb]
    · have h1 : (c + 1) % 2 = 0 := by omega
      simp only [List.length_cons, List.length_nil, hc, h1]
      constructor
      · show List.count a (b :: a :: rrRun [a, b] (c + 1 + 1) (2 * m)) = m + 1
        rw [List.count_cons_of_ne hab, List.count_cons_self, iha]
      · show List.count b (b :: a :: rrRun [a, b] (c + 1 + 1) (2 * m)) = m + 1
        rw [List.count_cons_self, List.count_cons_of_ne (Ne.symm hab), ihb]

/-- C6: round-robin fairness — with three healthy instances any three
consecutive selections return all three distinct instances before any
repeats, and with two distinct instances ten consecutive selections
distribute exactly five to each. -/
theorem round_robin_fairness (a b d : String) (c c2 : Nat) (hab : a ≠ b) :
    (rrRun [a, b, d] c 3).Perm [a, b, d] ∧
    (rrRun [a, b] c2 10).count a = 5 ∧ (rrRun [a, b] c2 10).count b = 5 :=
  ⟨rrRun_three a b d c, (rrRun_pair_count a b hab 5 c2).1,
    (rrRun_pair_count a b hab 5 c2).2⟩

/-- C6 witness: instances A, B, C from cursor 0 are cycled through, and ten
selections over A, B split five and five. -/
theorem round_robin_fairness_witness :
    (rrRun ["A", "B", "C"] 0 3).Perm ["A", "B", "C"] ∧
    (rrRun ["A", "B"] 0 10).count "A" = 5 ∧
    (rrRun ["A", "B"] 0 10).count "B" = 5 :=
  round_robin_fairness "A" "B" "C" 0 0 (by decide)

/-- The executor never makes more attempts than the remaining budget. -/
theorem executeLoop_made_le (outcome : String → Bool) :
    ∀ (b : Nat) (excl avail : List String) (made : Nat),
      (executeLoop outcome b excl avail made).1 ≤ made + b := by
  intro b
  induction b with
  | zero =>
    intro excl avail made
    rw [executeLoop]
    omega
  | succ m ih =>
    intro excl avail made
    rw [executeLoop]
    cases hs : selectExcluding avail excl with
    | none =>
      simp only [hs]
      show made ≤ made + (m + 1)
      omega
    | some i =>
      simp only [hs]
      by_cases ho : outcome i = true
      · rw [if_pos ho]
        show made + 1 ≤ made + (m + 1)
        omega
      · rw [if_neg ho]
        have := ih (i :: excl) avail (made + 1)
        omega

/-- When selection succeeds on a duplicate-free instance list, the pool of
untried instances was nonempty and excluding the selected instance shrinks
it by exactly one. -/
theorem selectExcluding_some {avail excl : List String} {i : String}
    (hnd : avail.Nodup) (h : selectExcluding avail excl = some i) :
    0 < (avail.filter (fun x => !(excl.contains x))).length ∧
    (avail.filter (fun x => !((i :: excl).contains x))).length
      = (avail.filter (fun x => !(excl.contains x))).length - 1 := by
  induction avail with
  | nil => exact Option.noConfusion h
  | cons a rest ih =>
    by_cases ha : a ∈ excl
    · rw [selectExcluding, List.find?_cons_of_neg _ (by simp [ha])] at h
      obtain ⟨hpos, hlen⟩ := ih (List.nodup_cons.mp hnd).2 h
      have hR : (a :: rest).filter (fun x => !(excl.contains x))
          = rest.filter (fun x => !(excl.contains x)) :=
        List.filter_cons_of_neg (by simp [ha])
      have hL : (a :: rest).filter (fun x => !((i :: excl).contains x))
          = rest.filter (fun x => !((i :: excl).contains x)) :=
        List.filter_cons_of_neg (by simp [ha])
      rw [hR, hL]
      exact ⟨hpos, hlen⟩
    · rw [selectExcluding, List.find?_cons_of_pos _ (by simp [ha])] at h
      injection h with h
      subst h
      have hanotin : a ∉ rest := (List.nodup_cons.mp hnd).1
      have hR : (a :: rest).filter (fun x => !(excl.contains x))
          = a :: rest.filter (fun x => !(excl.contains x)) :=
        List.filter_cons_of_pos (by simp [ha])
      have hsame : rest.filter (fun x => !((a :: excl).contains x))
          = rest.filter (fun x => !(excl.contains x)) := by
        apply List.filter_congr
        intro x hx
        have hxa : x ≠ a := fun he => hanotin (he ▸ hx)
        simp [hxa]
      have hL : (a :: rest).filter (fun x => !((a :: excl).contains x))
          = rest.filter (fun x => !(excl.contains x)) := by
        rw [List.filter_cons_of_neg (by simp), hsame]
      rw [hR, hL]
      simp

/-- When every attempt fails, the executor makes min(budget, untried
instances) attempts, ending in RetryExhausted when the budget ran out first
and ServiceUnavailable when the candidates did. -/
theorem executeLoop_all_fail (outcome : String → Bool) (hfail : ∀ i, outcome i = false)
    (avail : List String) (hnd : avail.Nodup) :
    ∀ (b : Nat) (excl : List String) (made : Nat),
      executeLoop outcome b excl avail made =
        if b ≤ (avail.filter (fun x => !(excl.contains x))).length
        then (made + b, .retryExhausted)
        else (made + (avail.filter (fun x => !(excl.contains x))).length,
          .serviceUnavailable) := by
  intro b
  induction b with
  | zero =>
    intro excl made
    rw [executeLoop, if_pos (Nat.zero_le _)]
    simp
  | succ m ih =>
    intro excl made
    rw [executeLoop]
    cases hs : selectExcluding avail excl with
    | none =>
      have hnil : avail.filter (fun x => !(excl.contains x)) = [] := by
        rw [List.filter_eq_nil_iff]
        intro x hx
        have hnone := List.find?_eq_none.mp hs x hx
        simpa using hnone
      rw [hnil]
      simp only [hs]
      rw [if_neg (by simp)]
      simp
    | some i =>
      simp only [hs]
      rw [if_neg (by simp [hfail i]), ih (i :: excl) (made + 1)]
      obtain ⟨hpos, hlen⟩ := selectExcluding_some hnd hs
      rw [hlen]
      by_cases hm : m + 1 ≤ (avail.filter (fun x => !(excl.contains x))).length
      · rw [if_pos (by omega), if_pos hm]
        have harith : made + 1 + m = made + (m + 1) := by omega
        rw [harith]
      · rw [if_neg (by omega), if_neg hm]
        have harith : made + 1
            + ((avail.filter (fun x => !(excl.contains x))).length - 1)
            = made + (avail.filter (fun x => !(excl.contains x))).length := by
          omega
        rw [harith]

/-- C5: the attempt budget is never exceeded — for any policy the executor
makes at most max_attempts attempts; with max_attempts = 3, at least three
distinct instances and every attempt failing retriably, exactly 3 attempts
are made (each excluding the previously tried instances) and the caller
gets RetryExhausted, never a 4th attempt. -/
theorem retry_budget (outcome : String → Bool) (avail : List String)
    (hfail : ∀ i, outcome i = false) (hnd : avail.Nodup)
    (h3 : 3 ≤ avail.length) :
    proxyExecute ⟨3⟩ outcome avail = (3, .retryExhausted) ∧
    (∀ (p : RetryPolicy) (oc : String → Bool) (av : List String),
      (proxyExecute p oc av).1 ≤ p.max_attempts) := by
  constructor
  · rw [proxyExecute, executeLoop_all_fail outcome hfail avail hnd 3 [] 0]
    have hfeq : avail.filter (fun x => !(([] : List String).contains x)) = avail := by
      simp
    rw [hfeq, if_pos (by omega)]
  · intro p oc av
    have := executeLoop_made_le oc p.max_attempts [] av 0
    simpa using this

/-- C5 witness: three instances A, B, C all failing under a budget of 3
yield exactly 3 attempts and RetryExhausted. -/
theorem retry_budget_witness :
    proxyExecute ⟨3⟩ (fun _ => false) ["A", "B", "C"] = (3, .retryExhausted) :=
  (retry_budget (fun _ => false) ["A", "B", "C"] (fun _ => rfl)
    (by decide) (by decide)).1

/-- C9: createMetadata preserves the override outside the decorated fields —
every top-level field other than openGraph, twitter and alternates is
passed through unchanged — and inside openGraph, twitter and alternates any
field supplied by the override takes precedence over the generated
defaults; in particular twitter.card is the default summary_large_image
exactly when the override does not supply a card. -/
theorem createMetadata_frame (o : Metadata) :
    ((createMetadata o).title = o.title ∧
      (createMetadata o).description = o.description ∧
      (createMetadata o).keywords = o.keywords ∧
      (createMetadata o).authors = o.authors) ∧
    (∀ og, o.openGraph = some og →
      (∀ w, og.title = some w → (createMetadata o).openGraph.title = w) ∧
      (∀ w, og.description = some w → (createMetadata o).openGraph.description = w) ∧
      (∀ w, og.url = some w → (createMetadata o).openGraph.url = w) ∧
      (∀ w, og.images = some w → (createMetadata o).openGraph.images = w) ∧
      (∀ w, og.siteName = some w → (createMetadata o).openGraph.siteName = w)) ∧
    (∀ tw, o.twitter = some tw →
      (∀ w, tw.card = some w → (createMetadata o).twitter.card = w) ∧
      (∀ w, tw.creator = some w → (createMetadata o).twitter.creator = w) ∧
      (∀ w, tw.title = some w → (createMetadata o).twitter.title = w) ∧
      (∀ w, tw.description = some w → (createMetadata o).twitter.description = w) ∧
      (∀ w, tw.images = some w → (createMetadata o).twitter.images = w)) ∧
    (∀ al, o.alternates = some al →
      (∀ w, al.types = some w → (createMetadata o).alternates.types = w) ∧
      (∀ w, al.canonical = some w →
        (createMetadata o).alternates.canonical = some w)) ∧
    ((createMetadata o).twitter.card = some "summary_large_image" ↔
      (o.twitter = none ∨ ∃ tw, o.twitter = some tw ∧
        (tw.card = none ∨ tw.card = some (some "summary_large_image")))) := by
  refine ⟨⟨rfl, rfl, rfl, rfl⟩, fun og hog => ?_, fun tw htw => ?_,
    fun al hal => ?_, ?_⟩
  · refine ⟨fun w hw => ?_, fun w hw => ?_, fun w hw => ?_, fun w hw => ?_,
      fun w hw => ?_⟩ <;>
      simp [createMetadata, mergeOpenGraph, hog, hw]
  · refine ⟨fun w hw => ?_, fun w hw => ?_, fun w hw => ?_, fun w hw => ?_,
      fun w hw => ?_⟩ <;>
      simp [createMetadata, mergeTwitter, htw, hw]
  · exact ⟨fun w hw => by simp [createMetadata, mergeAlternates, hal, hw],
      fun w hw => by simp [createMetadata, mergeAlternates, hal, hw]⟩
  · constructor
    · intro h
      cases htw : o.twitter with
      | none => exact Or.inl rfl
      | some tw =>
        refine Or.inr ⟨tw, rfl, ?_⟩
        cases hcard : tw.card with
        | none => exact Or.inl rfl
        | some w =>
          refine Or.inr ?_
          rw [createMetadata] at h
          simp only [mergeTwitter, htw, Option.getD_some, hcard] at h
          rw [h]
    · intro h
      rcases h with h | ⟨tw, htw, hcard⟩
      · simp [createMetadata, mergeTwitter, h]
      · rcases hcard with hcard | hcard <;>
          simp [createMetadata, mergeTwitter, htw, hcard]

/-- An example override: a title, a custom openGraph url, an empty twitter
object. -/
def demoOverride : Metadata :=
  { title := some "T"
    openGraph := some { url := some (some "https://example.org") }
    twitter := some ({} : TwitterOverride) }

/-- C9 witness: an override with a title, a custom openGraph url and an
empty twitter object keeps its title, takes the custom url and gets the
default card. -/
theorem createMetadata_frame_witness :
    (createMetadata demoOverride).title = some "T" ∧
    (createMetadata demoOverride).openGraph.url = some "https://example.org" ∧
    (createMetadata demoOverride).twitter.card = some "summary_large_image" := by
  have h := createMetadata_frame demoOverride
  exact ⟨h.1.1, (h.2.1 _ rfl).2.2.1 _ rfl,
    h.2.2.2.2.mpr (Or.inr ⟨{}, rfl, Or.inl rfl⟩)⟩

end Octopus
